import Mathlib

/-!
Verification of the session Completion Monitor (`sessionMonitor` in the
agents service, `lib/monitor.js`).  The monitor polls a document store for
records with `status == "completed"` that the agent has not yet processed,
claims each one by setting `agentProcessing`, invokes the external analysis
pipeline (`agent.processSession`), and records the outcome on the record.

The embedding below translates the monitor's code directly:
  * a document is a map from field names to values, updated by merge
    (Firestore `update` merges the given fields and fails on a missing doc);
  * the store is a finite list of (id, document) pairs;
  * the external pipeline is a function `String → Except String String`
    (result payload, or thrown error message);
  * each store write is additionally guarded by a write-failure oracle
    `Wf : String → Nat → Bool` (document id, write slot) modelling transient
    store unavailability (the spec's `StoreError`); slot 0 is the claim
    write, slot 1 the success write, slot 2 the failure-recording write;
  * every `new Date()` inside one operation is modelled by the single clock
    value `now` supplied to the operation.
-/

set_option autoImplicit false

namespace SessionMonitor

/-- Field values stored in a session document: strings, booleans, and
numeric timestamps. -/
inductive Value where
  | str (s : String)
  | bool (b : Bool)
  | nat (n : Nat)
deriving DecidableEq

/-- A session document: a finite-support map from field names to values. -/
abbrev Doc := String → Option Value

/-- A field map handed to a merge update. -/
abbrev Fields := List (String × Value)

/-- First-match lookup in a field map. -/
def lookupF : Fields → String → Option Value
  | [], _ => none
  | (k, v) :: rest, key => if key = k then some v else lookupF rest key

/-- Merge update of a document, as Firestore's `DocumentReference.update`:
fields named in the map are overwritten, all other fields are untouched. -/
def Doc.update (d : Doc) (fs : Fields) : Doc :=
  fun k =>
    match lookupF fs k with
    | some v => some v
    | none => d k

/-- Build a document from a field list. -/
def mkDoc (fs : Fields) : Doc := fun k => lookupF fs k

/-- The session collection: a list of (document id, document) pairs. -/
abbrev Store := List (String × Doc)

/-- Fetch a document by id (`doc.exists` is `isSome` of this). -/
def Store.get : Store → String → Option Doc
  | [], _ => none
  | (i, d) :: rest, id => if id = i then some d else Store.get rest id

/-- Whether a document with the given id exists. -/
def Store.has (s : Store) (id : String) : Bool := (s.get id).isSome

/-- Apply a document transformation at one id, leaving other entries alone. -/
def Store.applyAt : Store → String → (Doc → Doc) → Store
  | [], _, _ => []
  | (i, d) :: rest, id, f =>
    (if i = id then (i, f d) else (i, d)) :: Store.applyAt rest id f

/-- Merge-update the document with the given id; Firestore's `update` fails
on a document that does not exist. -/
def Store.updateF (s : Store) (id : String) (fs : Fields) :
    Except String Store :=
  if s.has id then .ok (s.applyAt id (fun d => d.update fs))
  else .error ("No document " ++ id)

/-- Read one field of one record (none if the record or field is absent). -/
def Store.field (s : Store) (id k : String) : Option Value :=
  match s.get id with
  | some d => d k
  | none => none

/-- Write-failure oracle: `wf id slot = true` means the store write in the
given slot for the given document id throws (transient unavailability). -/
abbrev Wf := String → Nat → Bool

/-- The oracle under which every store write reaches the store. -/
def wfNone : Wf := fun _ _ => false

/-- One store write as performed by the monitor: it may throw because the
store is unavailable (per the oracle) or because the document is missing. -/
def writeDoc (wf : Wf) (slot : Nat) (s : Store) (id : String) (fs : Fields) :
    Except String Store :=
  if wf id slot then .error "store unavailable" else s.updateF id fs

/-- The external analysis/action pipeline `agent.processSession`: returns a
result payload or throws an error message. -/
abbrev Pipeline := String → Except String String

/-- Fields of the claim write
(`{ agentProcessing: true, agentProcessingStarted: new Date() }`). -/
def claimFields (now : Nat) : Fields :=
  [("agentProcessing", .bool true), ("agentProcessingStarted", .nat now)]

/-- Fields of the success write (`{ agentProcessed: true, agentProcessing:
false, agentProcessingCompleted: new Date(), agentResult: result }`). -/
def successFields (result : String) (now : Nat) : Fields :=
  [("agentProcessed", .bool true), ("agentProcessing", .bool false),
   ("agentProcessingCompleted", .nat now), ("agentResult", .str result)]

/-- Fields of the failure-recording write (`{ agentProcessing: false,
agentProcessingError: error.message, agentProcessingFailed: new Date() }`). -/
def failFields (msg : String) (now : Nat) : Fields :=
  [("agentProcessing", .bool false), ("agentProcessingError", .str msg),
   ("agentProcessingFailed", .nat now)]

/-- JavaScript string interpolation of `sessionData.status`. -/
def statusText (d : Doc) : String :=
  match d "status" with
  | some (.str s) => s
  | some (.bool b) => if b then "true" else "false"
  | some (.nat n) => toString n
  | none => "undefined"

/-- Modelled from the spec: the document-store evaluation of the selector's
filter `status == 'completed' AND agentProcessed != true` built in
`checkSessions`; per the spec's Candidate Selector, a record whose
`agentProcessed` field is absent also satisfies `agentProcessed != true`. -/
def isCandidate (d : Doc) : Bool :=
  decide (d "status" = some (.str "completed")) &&
    decide (d "agentProcessed" ≠ some (.bool true))

/-- All records matching the selector's filter, in store order. -/
def candidates (s : Store) : List (String × Doc) :=
  s.filter fun p => isCandidate p.2

/-- Sort rank of `agentProcessed` for `orderBy('agentProcessed')` ascending:
absent first, then `false`, then `true`. -/
def procRank (d : Doc) : Nat :=
  match d "agentProcessed" with
  | none => 0
  | some (.bool false) => 1
  | some (.bool true) => 2
  | some _ => 3

/-- Value of `analysisCompleted` used by
`orderBy('analysisCompleted', 'desc')` (absent sorts last). -/
def antime (d : Doc) : Nat :=
  match d "analysisCompleted" with
  | some (.nat n) => n
  | _ => 0

/-- Modelled from the spec: the selector's ordering — `agentProcessed`
ascending (absent first), then `analysisCompleted` descending, with the
document id as the store's final tiebreak. -/
def candLE (a b : String × Doc) : Bool :=
  decide (procRank a.2 < procRank b.2) ||
    (decide (procRank a.2 = procRank b.2) &&
      (decide (antime b.2 < antime a.2) ||
        (decide (antime a.2 = antime b.2) && decide (a.1 ≤ b.1))))

/-- Insert into a list sorted by `le`. -/
def insertBy {α : Type} (le : α → α → Bool) (x : α) : List α → List α
  | [] => [x]
  | y :: ys => if le x y then x :: y :: ys else y :: insertBy le x ys

/-- Insertion sort by `le`. -/
def sortBy {α : Type} (le : α → α → Bool) : List α → List α
  | [] => []
  | x :: xs => insertBy le x (sortBy le xs)

/-- The selector query of `checkSessions`: filter, order, `limit(5)`. -/
def queryDocs (s : Store) : List (String × Doc) :=
  (sortBy candLE (candidates s)).take 5

/-- Ids of the selected candidates. -/
def queryIds (s : Store) : List String := (queryDocs s).map fun p => p.1

/-- The `catch` block of the per-candidate loop in `checkSessions`: record
the failure on the document; if that write itself throws, the error escapes
the per-candidate handler and aborts the loop (second component `some`). -/
def tickFail (wf : Wf) (now : Nat) (s : Store) (id e : String) :
    Store × Option String :=
  match writeDoc wf 2 s id (failFields e now) with
  | .ok s' => (s', none)
  | .error e2 => (s, some e2)

/-- The body of the per-candidate loop of `checkSessions` (the snapshot data
`doc.data()` is bound by the source but never used): claim the record,
invoke the pipeline, record the outcome. -/
def processDoc (wf : Wf) (pipe : Pipeline) (now : Nat) (s : Store)
    (id : String) : Store × Option String :=
  match writeDoc wf 0 s id (claimFields now) with
  | .error e => tickFail wf now s id e
  | .ok s1 =>
    match pipe id with
    | .error e => tickFail wf now s1 id e
    | .ok r =>
      match writeDoc wf 1 s1 id (successFields r now) with
      | .error e => tickFail wf now s1 id e
      | .ok s2 => (s2, none)

/-- The `for (const doc of snapshot.docs)` loop of `checkSessions`; an error
escaping one iteration aborts the remaining iterations. -/
def processDocs (wf : Wf) (pipe : Pipeline) (now : Nat) :
    List (String × Doc) → Store → Store × Option String
  | [], s => (s, none)
  | (id, _) :: rest, s =>
    match processDoc wf pipe now s id with
    | (s', none) => processDocs wf pipe now rest s'
    | (s', some e) => (s', some e)

/-- One tick of `checkSessions` before its outermost `catch`: run the
selector query and process each selected candidate. -/
def checkSessionsE (wf : Wf) (pipe : Pipeline) (now : Nat) (s : Store) :
    Store × Option String :=
  processDocs wf pipe now (queryDocs s) s

/-- One tick of `checkSessions` as the scheduler sees it: the outermost
`try/catch` logs and swallows any error, keeping the store reached so far. -/
def checkSessions (wf : Wf) (pipe : Pipeline) (now : Nat) (s : Store) :
    Store :=
  (checkSessionsE wf pipe now s).1

/-- The `catch` block of `processSession`: best-effort failure recording
(its own error is swallowed by the nested `try/catch`), then rethrow. -/
def psFail (wf : Wf) (now : Nat) (s : Store) (id e : String) :
    Except String String × Store :=
  match writeDoc wf 2 s id (failFields e now) with
  | .ok s' => (.error e, s')
  | .error _ => (.error e, s)

/-- The manual single-record trigger `sessionMonitor.processSession`:
fetch the record, validate existence and `status === 'completed'`, claim,
invoke the pipeline, record success and return the result; any error is
recorded best-effort and rethrown. -/
def processSession (wf : Wf) (pipe : Pipeline) (now : Nat) (s : Store)
    (id : String) : Except String String × Store :=
  match s.get id with
  | none => psFail wf now s id ("Session " ++ id ++ " not found")
  | some d =>
    if d "status" ≠ some (.str "completed") then
      psFail wf now s id
        ("Session " ++ id ++ " is not completed yet (status: " ++
          statusText d ++ ")")
    else
      match writeDoc wf 0 s id (claimFields now) with
      | .error e => psFail wf now s id e
      | .ok s1 =>
        match pipe id with
        | .error e => psFail wf now s1 id e
        | .ok r =>
          match writeDoc wf 1 s1 id (successFields r now) with
          | .error e => psFail wf now s1 id e
          | .ok s2 => (.ok r, s2)

/-- Iterated ticks of the scheduler loop (`setInterval` driving
`checkSessions`). -/
def iterTick (wf : Wf) (pipe : Pipeline) (now : Nat) : Nat → Store → Store
  | 0, s => s
  | n + 1, s => iterTick wf pipe now n (checkSessions wf pipe now s)

/-- The Outcome Recorder's success write (the `agentProcessed` update of
`checkSessions`), as a store operation. -/
def recordSuccess (s : Store) (id : String) (result : String) (now : Nat) :
    Except String Store :=
  s.updateF id (successFields result now)

/-- Whether a field name begins with `agent` (the fields owned by the
Completion Monitor). -/
def agentField (k : String) : Bool :=
  decide (k.data.take 5 = "agent".data)

/-- An initial store in which no record carries any `agent*` field. -/
def InitOk (s : Store) : Prop :=
  ∀ p ∈ s, ∀ k, agentField k = true → p.2 k = none

/-- States reachable from a starting store by complete monitor operations
(scheduler ticks and manual triggers), with arbitrary pipelines, clocks,
and store-write failure oracles. -/
inductive Reachable : Store → Store → Prop where
  | refl (s : Store) : Reachable s s
  | tick (wf : Wf) (pipe : Pipeline) (now : Nat) {s₀ s : Store} :
      Reachable s₀ s → Reachable s₀ (checkSessions wf pipe now s)
  | manual (wf : Wf) (pipe : Pipeline) (now : Nat) (id : String)
      {s₀ s : Store} :
      Reachable s₀ s → Reachable s₀ (processSession wf pipe now s id).2

/-- States reachable by complete monitor operations in which every store
write succeeds. -/
inductive ReachableOk : Store → Store → Prop where
  | refl (s : Store) : ReachableOk s s
  | tick (pipe : Pipeline) (now : Nat) {s₀ s : Store} :
      ReachableOk s₀ s → ReachableOk s₀ (checkSessions wfNone pipe now s)
  | manual (pipe : Pipeline) (now : Nat) (id : String) {s₀ s : Store} :
      ReachableOk s₀ s → ReachableOk s₀ (processSession wfNone pipe now s id).2

/-- The precondition-violation message thrown by `processSession` when the
record is not in `completed` status. -/
def precondMsg (id : String) (d : Doc) : String :=
  "Session " ++ id ++ " is not completed yet (status: " ++ statusText d ++ ")"

/-- A one-record concrete store used by the witnesses. -/
def storeOne : Store :=
  [("S1", mkDoc [("status", .str "completed"), ("analysisCompleted", .nat 9)])]

/-- A concrete record still in `processing` status. -/
def storeProc : Store := [("S2", mkDoc [("status", .str "processing")])]

/-- A pipeline that succeeds on every session with payload `"r"`. -/
def pipeOk : Pipeline := fun _ => .ok "r"

/-- The spec's terminal-state invariant on one record. -/
def Inv (d : Doc) : Prop :=
  d "agentProcessed" = some (.bool true) →
    d "agentProcessing" = some (.bool false) ∧
      ∃ v, d "agentResult" = some v

/-- The invariant over every record of the store. -/
def StoreInv (s : Store) : Prop := ∀ p ∈ s, Inv p.2

/-- A pipeline that throws `rate limited` on every session. -/
def pipeRL : Pipeline := fun _ => .error "rate limited"

/-- The store after a failed manual attempt on `S1` of `storeOne`. -/
def storeAfterFail : Store :=
  (processSession wfNone pipeRL 1 storeOne "S1").2

/-- The store transition touches no field outside the `agent*` family. -/
def NonAgentPres (s t : Store) : Prop :=
  ∀ rid k, agentField k = false → t.field rid k = s.field rid k

/-- The record carries the mark of an attempt made at time `now`: either
the claim write stamped `agentProcessingStarted`, or the failure-recording
write stamped `agentProcessingFailed`. -/
def Attempted (t : Store) (id : String) (now : Nat) : Prop :=
  Store.field t id "agentProcessingStarted" = some (.nat now) ∨
    Store.field t id "agentProcessingFailed" = some (.nat now)

/-- A two-candidate store: `A` sorts before `B` (larger
`analysisCompleted`). -/
def storeAB : Store :=
  [("A", mkDoc [("status", .str "completed"), ("analysisCompleted", .nat 10)]),
   ("B", mkDoc [("status", .str "completed"), ("analysisCompleted", .nat 5)])]

/-- A pipeline that throws only on session `A`. -/
def pipeFailA : Pipeline :=
  fun i => if i = "A" then .error "boom" else .ok "r"

/-- A store oracle under which only the failure-recording write for `A`
throws. -/
def wfFailA : Wf := fun i slot => decide (i = "A") && decide (slot = 2)

/-- The store after one successful manual processing of `S1`. -/
def storeOnceOk : Store := (processSession wfNone pipeOk 1 storeOne "S1").2

/-- A store oracle under which the claim write succeeds but both terminal
writes (success- and failure-recording) throw. -/
def wfLate : Wf := fun _ slot => decide (1 ≤ slot)

/-- The store after a repeat manual trigger on the already-processed `S1`
under `wfLate`: the claim is taken, then neither terminal write lands. -/
def storeBroken : Store := (processSession wfLate pipeOk 2 storeOnceOk "S1").2

/-- Ids of the records matching the selector's filter. -/
def candIds (s : Store) : List String :=
  (candidates s).map fun p => p.1

/-- A completed, never-attempted record with the given analysis time. -/
def cdoc (t : Nat) : Doc :=
  mkDoc [("status", .str "completed"), ("analysisCompleted", .nat t)]

/-- A store with six records all matching the selector's filter. -/
def storeSix : Store :=
  [("S1", cdoc 6), ("S2", cdoc 5), ("S3", cdoc 4),
   ("S4", cdoc 3), ("S5", cdoc 2), ("S6", cdoc 1)]

section Lemmas

lemma update_apply_none {fs : Fields} {k : String} (d : Doc)
    (h : lookupF fs k = none) : d.update fs k = d k := by
  simp [Doc.update, h]

lemma update_apply_some {fs : Fields} {k : String} {v : Value} (d : Doc)
    (h : lookupF fs k = some v) : d.update fs k = some v := by
  simp [Doc.update, h]

lemma get_applyAt_self (s : Store) (id : String) (f : Doc → Doc) :
    (s.applyAt id f).get id = (s.get id).map f := by
  induction s with
  | nil => rfl
  | cons p rest ih =>
    obtain ⟨i, d⟩ := p
    by_cases h : i = id
    · subst h
      rw [Store.applyAt, if_pos rfl, Store.get, Store.get, if_pos rfl,
        if_pos rfl]
      rfl
    · have h' : ¬ id = i := fun hh => h hh.symm
      rw [Store.applyAt, if_neg h, Store.get, Store.get, if_neg h',
        if_neg h']
      exact ih

lemma get_applyAt_ne (s : Store) {id id' : String} (f : Doc → Doc)
    (h : id' ≠ id) : (s.applyAt id f).get id' = s.get id' := by
  induction s with
  | nil => rfl
  | cons p rest ih =>
    obtain ⟨i, d⟩ := p
    by_cases hi : i = id
    · subst hi
      have h2 : ¬ id' = i := h
      rw [Store.applyAt, if_pos rfl, Store.get, Store.get, if_neg h2,
        if_neg h2]
      exact ih
    · rw [Store.applyAt, if_neg hi]
      by_cases h2 : id' = i
      · rw [Store.get, Store.get, if_pos h2, if_pos h2]
      · rw [Store.get, Store.get, if_neg h2, if_neg h2]
        exact ih

lemma has_applyAt (s : Store) (id id' : String) (f : Doc → Doc) :
    (s.applyAt id f).has id' = s.has id' := by
  by_cases h : id' = id
  · subst h
    rw [Store.has, Store.has, get_applyAt_self]
    cases s.get id' <;> rfl
  · rw [Store.has, Store.has, get_applyAt_ne s f h]

lemma updateF_ok {s : Store} {id : String} (fs : Fields)
    (h : s.has id = true) :
    s.updateF id fs = .ok (s.applyAt id (fun d => d.update fs)) := by
  simp [Store.updateF, h]

lemma updateF_err {s : Store} {id : String} (fs : Fields)
    (h : s.has id = false) :
    s.updateF id fs = .error ("No document " ++ id) := by
  simp [Store.updateF, h]

lemma has_of_get {s : Store} {id : String} {d : Doc}
    (h : s.get id = some d) : s.has id = true := by
  simp [Store.has, h]

lemma has_none_of_get {s : Store} {id : String}
    (h : s.get id = none) : s.has id = false := by
  simp [Store.has, h]

lemma writeDoc_ok {wf : Wf} {slot : Nat} {s : Store} {id : String}
    (fs : Fields) (hw : wf id slot = false) (h : s.has id = true) :
    writeDoc wf slot s id fs =
      .ok (s.applyAt id (fun d => d.update fs)) := by
  simp [writeDoc, hw, updateF_ok fs h]

lemma writeDoc_missing (wf : Wf) (slot : Nat) {s : Store} {id : String}
    (fs : Fields) (h : s.has id = false) :
    ∃ e, writeDoc wf slot s id fs = .error e := by
  by_cases hw : wf id slot
  · exact ⟨"store unavailable", by simp [writeDoc, hw]⟩
  · exact ⟨"No document " ++ id,
      by simp [writeDoc, hw, updateF_err fs h]⟩

lemma field_applyAt_self {s : Store} {id : String} {d : Doc}
    (f : Doc → Doc) (h : s.get id = some d) (k : String) :
    (s.applyAt id f).field id k = f d k := by
  simp [Store.field, get_applyAt_self, h]

lemma field_eq_of_get {s : Store} {id : String} {d : Doc}
    (h : s.get id = some d) (k : String) : s.field id k = d k := by
  simp [Store.field, h]

lemma applyAt_applyAt (s : Store) (id : String) (f g : Doc → Doc) :
    (s.applyAt id f).applyAt id g = s.applyAt id (fun d => g (f d)) := by
  induction s with
  | nil => rfl
  | cons p rest ih =>
    obtain ⟨i, d⟩ := p
    by_cases h : i = id
    · rw [Store.applyAt, if_pos h, Store.applyAt, Store.applyAt, if_pos h,
        if_pos h, ih]
    · rw [Store.applyAt, if_neg h, Store.applyAt, Store.applyAt, if_neg h,
        if_neg h, ih]

lemma update_update_self (d : Doc) (fs : Fields) :
    (d.update fs).update fs = d.update fs := by
  funext k
  cases h : lookupF fs k with
  | none => simp [Doc.update, h]
  | some v => simp [Doc.update, h]

lemma lookupF_none_of_keys {fs : Fields} {k : String}
    (h : ∀ p ∈ fs, p.1 ≠ k) : lookupF fs k = none := by
  induction fs with
  | nil => rfl
  | cons p rest ih =>
    have h1 : ¬ k = p.1 := fun hk => h p (by simp) hk.symm
    obtain ⟨a, v⟩ := p
    rw [lookupF, if_neg h1]
    exact ih fun q hq => h q (by simp [hq])

lemma ne_of_agent_prefix {a k : String}
    (ha : agentField a = true) (hk : agentField k = false) :
    a ≠ k := by
  intro h
  rw [h, hk] at ha
  exact Bool.noConfusion ha

lemma claimFields_keys {now : Nat} :
    ∀ p ∈ claimFields now, agentField p.1 = true := by
  intro p hp
  simp only [claimFields, List.mem_cons, List.not_mem_nil, or_false] at hp
  rcases hp with h | h <;> subst h <;> rfl

lemma successFields_keys {r : String} {now : Nat} :
    ∀ p ∈ successFields r now, agentField p.1 = true := by
  intro p hp
  simp only [successFields, List.mem_cons, List.not_mem_nil, or_false] at hp
  rcases hp with h | h | h | h <;> subst h <;> rfl

lemma failFields_keys {msg : String} {now : Nat} :
    ∀ p ∈ failFields msg now, agentField p.1 = true := by
  intro p hp
  simp only [failFields, List.mem_cons, List.not_mem_nil, or_false] at hp
  rcases hp with h | h | h <;> subst h <;> rfl

lemma lookupF_agent_none {fs : Fields} {k : String}
    (hfs : ∀ p ∈ fs, agentField p.1 = true)
    (hk : agentField k = false) : lookupF fs k = none :=
  lookupF_none_of_keys fun p hp => ne_of_agent_prefix (hfs p hp) hk

end Lemmas

section PathLemmas

lemma processSession_precond_eq (wf : Wf) (pipe : Pipeline) (now : Nat)
    (s : Store) (id : String) (d : Doc)
    (hg : s.get id = some d)
    (hst : d "status" ≠ some (.str "completed")) :
    processSession wf pipe now s id =
      psFail wf now s id (precondMsg id d) := by
  simp only [processSession, hg]
  rw [if_pos hst]
  rfl

lemma processSession_ok_eq (wf : Wf) (pipe : Pipeline) (now : Nat)
    (s : Store) (id : String) (d : Doc) (r : String)
    (hg : s.get id = some d)
    (hst : d "status" = some (.str "completed"))
    (hp : pipe id = .ok r)
    (hw0 : wf id 0 = false) (hw1 : wf id 1 = false) :
    processSession wf pipe now s id =
      (.ok r, s.applyAt id fun d0 : Doc =>
        (d0.update (claimFields now)).update (successFields r now)) := by
  have hnot : ¬ d "status" ≠ some (.str "completed") := by simp [hst]
  have h1 : (s.applyAt id fun d0 : Doc =>
      d0.update (claimFields now)).has id = true := by
    rw [has_applyAt]
    exact has_of_get hg
  simp only [processSession, hg, if_neg hnot,
    writeDoc_ok (claimFields now) hw0 (has_of_get hg), hp,
    writeDoc_ok (successFields r now) hw1 h1, applyAt_applyAt]

lemma processSession_pipe_err_eq (wf : Wf) (pipe : Pipeline) (now : Nat)
    (s : Store) (id : String) (d : Doc) (e : String)
    (hg : s.get id = some d)
    (hst : d "status" = some (.str "completed"))
    (hp : pipe id = .error e)
    (hw0 : wf id 0 = false) (hw2 : wf id 2 = false) :
    processSession wf pipe now s id =
      (.error e, s.applyAt id fun d0 : Doc =>
        (d0.update (claimFields now)).update (failFields e now)) := by
  have hnot : ¬ d "status" ≠ some (.str "completed") := by simp [hst]
  have h1 : (s.applyAt id fun d0 : Doc =>
      d0.update (claimFields now)).has id = true := by
    rw [has_applyAt]
    exact has_of_get hg
  simp only [processSession, hg, if_neg hnot,
    writeDoc_ok (claimFields now) hw0 (has_of_get hg), hp, psFail,
    writeDoc_ok (failFields e now) hw2 h1, applyAt_applyAt]

lemma processDoc_ok_eq (wf : Wf) (pipe : Pipeline) (now : Nat)
    (s : Store) (id : String) (r : String)
    (hh : s.has id = true) (hp : pipe id = .ok r)
    (hw0 : wf id 0 = false) (hw1 : wf id 1 = false) :
    processDoc wf pipe now s id =
      (s.applyAt id fun d0 : Doc =>
        (d0.update (claimFields now)).update (successFields r now), none) := by
  have h1 : (s.applyAt id fun d0 : Doc =>
      d0.update (claimFields now)).has id = true := by
    rw [has_applyAt]
    exact hh
  simp only [processDoc, writeDoc_ok (claimFields now) hw0 hh, hp,
    writeDoc_ok (successFields r now) hw1 h1, applyAt_applyAt]

lemma processDoc_pipe_err_eq (wf : Wf) (pipe : Pipeline) (now : Nat)
    (s : Store) (id : String) (e : String)
    (hh : s.has id = true) (hp : pipe id = .error e)
    (hw0 : wf id 0 = false) (hw2 : wf id 2 = false) :
    processDoc wf pipe now s id =
      (s.applyAt id fun d0 : Doc =>
        (d0.update (claimFields now)).update (failFields e now), none) := by
  have h1 : (s.applyAt id fun d0 : Doc =>
      d0.update (claimFields now)).has id = true := by
    rw [has_applyAt]
    exact hh
  simp only [processDoc, writeDoc_ok (claimFields now) hw0 hh, hp, tickFail,
    writeDoc_ok (failFields e now) hw2 h1, applyAt_applyAt]

lemma afterFail_status (d : Doc) (e : String) (now : Nat) :
    ((d.update (claimFields now)).update (failFields e now)) "status" =
      d "status" := by
  have h1 : ((d.update (claimFields now)).update (failFields e now))
      "status" = (d.update (claimFields now)) "status" :=
    update_apply_none _ rfl
  have h2 : (d.update (claimFields now)) "status" = d "status" :=
    update_apply_none _ rfl
  rw [h1, h2]

lemma afterFail_processed (d : Doc) (e : String) (now : Nat) :
    ((d.update (claimFields now)).update (failFields e now))
        "agentProcessed" = d "agentProcessed" := by
  have h1 : ((d.update (claimFields now)).update (failFields e now))
      "agentProcessed" = (d.update (claimFields now)) "agentProcessed" :=
    update_apply_none _ rfl
  have h2 : (d.update (claimFields now)) "agentProcessed" =
      d "agentProcessed" :=
    update_apply_none _ rfl
  rw [h1, h2]

lemma isCandidate_of {d : Doc}
    (hst : d "status" = some (.str "completed"))
    (hnp : d "agentProcessed" ≠ some (.bool true)) :
    isCandidate d = true := by
  simp [isCandidate, hst, hnp]

end PathLemmas

section ClaimC10

/-- C10: for an existing record whose status is not `completed`,
`processSession` throws the precondition error before taking any claim
(`agentProcessingStarted` and `agentProcessed` are untouched), yet the
catch block still records the failure on the record: `agentProcessing`
becomes `false` and `agentProcessingError` / `agentProcessingFailed` are
written before the error is rethrown. -/
theorem processSession_precondition (wf : Wf) (pipe : Pipeline) (now : Nat)
    (s : Store) (id : String) (d : Doc)
    (hg : s.get id = some d)
    (hst : d "status" ≠ some (.str "completed"))
    (hw : wf id 2 = false) :
    (processSession wf pipe now s id).1 = .error (precondMsg id d) ∧
      Store.field (processSession wf pipe now s id).2 id "agentProcessing" =
        some (.bool false) ∧
      Store.field (processSession wf pipe now s id).2 id
          "agentProcessingError" = some (.str (precondMsg id d)) ∧
      Store.field (processSession wf pipe now s id).2 id
          "agentProcessingFailed" = some (.nat now) ∧
      Store.field (processSession wf pipe now s id).2 id
          "agentProcessingStarted" = d "agentProcessingStarted" ∧
      Store.field (processSession wf pipe now s id).2 id "agentProcessed" =
        d "agentProcessed" := by
  have hps : processSession wf pipe now s id =
      psFail wf now s id (precondMsg id d) := by
    simp only [processSession, hg]
    rw [if_pos hst]
    rfl
  have hwr := writeDoc_ok (failFields (precondMsg id d) now) hw
    (has_of_get hg)
  have hpf : psFail wf now s id (precondMsg id d) =
      (.error (precondMsg id d),
        s.applyAt id fun d0 => d0.update (failFields (precondMsg id d) now)) := by
    unfold psFail
    rw [hwr]
  rw [hps, hpf]
  refine ⟨rfl, ?_, ?_, ?_, ?_, ?_⟩ <;>
    rw [field_applyAt_self _ hg]
  · exact update_apply_some d rfl
  · exact update_apply_some d rfl
  · exact update_apply_some d rfl
  · exact update_apply_none d rfl
  · exact update_apply_none d rfl

/-- Witness for C10: the rejected manual trigger on a record still in
`processing` status records failure fields even though no claim was taken. -/
theorem processSession_precondition_witness :
    Store.get storeProc "S2" = some (mkDoc [("status", .str "processing")]) ∧
      mkDoc [("status", .str "processing")] "status" ≠
        some (.str "completed") ∧
      (processSession wfNone pipeOk 6 storeProc "S2").1 =
        .error "Session S2 is not completed yet (status: processing)" ∧
      Store.field (processSession wfNone pipeOk 6 storeProc "S2").2 "S2"
          "agentProcessingFailed" = some (.nat 6) ∧
      Store.field (processSession wfNone pipeOk 6 storeProc "S2").2 "S2"
          "agentProcessingStarted" = none :=
  ⟨rfl, by decide,
    (processSession_precondition wfNone pipeOk 6 storeProc "S2"
        (mkDoc [("status", .str "processing")]) rfl (by decide) rfl).1,
    (processSession_precondition wfNone pipeOk 6 storeProc "S2"
        (mkDoc [("status", .str "processing")]) rfl (by decide) rfl).2.2.2.1,
    by
      have h := (processSession_precondition wfNone pipeOk 6 storeProc "S2"
        (mkDoc [("status", .str "processing")]) rfl (by decide) rfl).2.2.2.2.1
      rw [h]
      rfl⟩

end ClaimC10

section ClaimC9

/-- C9: the Outcome Recorder's success write is idempotent — applying the
terminal success update twice with the same result and timestamp leaves the
store exactly as applying it once. -/
theorem recordSuccess_idem (s : Store) (id result : String) (now : Nat)
    (s' : Store) (h : recordSuccess s id result now = .ok s') :
    recordSuccess s' id result now = .ok s' := by
  unfold recordSuccess at h ⊢
  by_cases hh : s.has id
  · rw [updateF_ok _ hh] at h
    have hs' : s' = s.applyAt id fun d : Doc =>
        d.update (successFields result now) := by
      injection h with h'
      exact h'.symm
    have hh' : s'.has id = true := by
      rw [hs', has_applyAt]
      exact hh
    rw [updateF_ok _ hh', hs', applyAt_applyAt]
    have he : (fun d : Doc => (d.update (successFields result now)).update
        (successFields result now)) =
        fun d : Doc => d.update (successFields result now) := by
      funext d
      exact update_update_self d _
    rw [he]
  · rw [updateF_err _ (Bool.of_not_eq_true hh)] at h
    exact absurd h (by simp)

/-- Witness for C9: recording success twice on a concrete record yields the
same store as recording it once. -/
theorem recordSuccess_idem_witness :
    recordSuccess storeOne "S1" "r" 7 =
        .ok (Store.applyAt storeOne "S1" fun d =>
          d.update (successFields "r" 7)) ∧
      recordSuccess
          (Store.applyAt storeOne "S1" fun d =>
            d.update (successFields "r" 7)) "S1" "r" 7 =
        .ok (Store.applyAt storeOne "S1" fun d =>
          d.update (successFields "r" 7)) :=
  by
  have hh : Store.has storeOne "S1" = true := by decide
  exact ⟨updateF_ok _ hh,
    recordSuccess_idem storeOne "S1" "r" 7 _ (updateF_ok _ hh)⟩

end ClaimC9

section ClaimC7

/-- C7: for a session identifier naming no record, `processSession` raises
the not-found error and returns the store untouched: the best-effort
failure-recording write in the catch block itself fails on the missing
document (or on an unavailable store) and is swallowed, so no field of any
record is written. -/
theorem processSession_not_found (wf : Wf) (pipe : Pipeline) (now : Nat)
    (s : Store) (id : String) (h : s.get id = none) :
    processSession wf pipe now s id =
      (.error ("Session " ++ id ++ " not found"), s) := by
  have hh : s.has id = false := has_none_of_get h
  unfold processSession
  rw [h]
  unfold psFail
  obtain ⟨e, he⟩ := writeDoc_missing wf 2
    (failFields ("Session " ++ id ++ " not found") now) hh
  rw [he]

/-- Witness for C7 at a concrete store: the lookup misses, and the call
returns the not-found error with the store unchanged. -/
theorem processSession_not_found_witness :
    Store.get storeOne "missing-id" = none ∧
      processSession wfNone pipeOk 3 storeOne "missing-id" =
        (.error "Session missing-id not found", storeOne) :=
  ⟨rfl, processSession_not_found wfNone pipeOk 3 storeOne "missing-id" rfl⟩

end ClaimC7

section ClaimC2

/-- C2 (amended): after a successful `processSession`, the record has
`agentProcessed = true`, `agentProcessing = false`, and `agentResult` set to
the pipeline's payload; however `agentProcessingError` is left exactly as it
was before the call — the success write does not clear it, so an error
recorded by a previous failed attempt persists. -/
theorem processSession_success_state (wf : Wf) (pipe : Pipeline) (now : Nat)
    (s : Store) (id : String) (d : Doc) (r : String)
    (hg : s.get id = some d)
    (hst : d "status" = some (.str "completed"))
    (hp : pipe id = .ok r)
    (hw0 : wf id 0 = false) (hw1 : wf id 1 = false) :
    (processSession wf pipe now s id).1 = .ok r ∧
      Store.field (processSession wf pipe now s id).2 id "agentProcessed" =
        some (.bool true) ∧
      Store.field (processSession wf pipe now s id).2 id "agentProcessing" =
        some (.bool false) ∧
      Store.field (processSession wf pipe now s id).2 id "agentResult" =
        some (.str r) ∧
      Store.field (processSession wf pipe now s id).2 id
        "agentProcessingError" = d "agentProcessingError" := by
  rw [processSession_ok_eq wf pipe now s id d r hg hst hp hw0 hw1]
  refine ⟨rfl, ?_, ?_, ?_, ?_⟩ <;> rw [field_applyAt_self _ hg]
  · exact update_apply_some _ rfl
  · exact update_apply_some _ rfl
  · exact update_apply_some _ rfl
  · have h1 : ((d.update (claimFields now)).update (successFields r now))
        "agentProcessingError" =
        (d.update (claimFields now)) "agentProcessingError" :=
      update_apply_none _ rfl
    have h2 : (d.update (claimFields now)) "agentProcessingError" =
        d "agentProcessingError" :=
      update_apply_none _ rfl
    rw [h1, h2]

/-- Witness for C2's amended theorem on a fresh record: success leaves no
error field because none was present before. -/
theorem processSession_success_state_witness :
    (processSession wfNone pipeOk 3 storeOne "S1").1 = .ok "r" ∧
      Store.field (processSession wfNone pipeOk 3 storeOne "S1").2 "S1"
        "agentProcessed" = some (.bool true) ∧
      Store.field (processSession wfNone pipeOk 3 storeOne "S1").2 "S1"
        "agentProcessingError" = none := by
  have h := processSession_success_state wfNone pipeOk 3 storeOne "S1"
    (mkDoc [("status", .str "completed"), ("analysisCompleted", .nat 9)])
    "r" rfl rfl rfl rfl rfl
  exact ⟨h.1, h.2.1, h.2.2.2.2⟩

/-- Counterexample to C2 as stated: after a failed attempt wrote
`agentProcessingError`, a subsequent successful `processSession` on the
same record returns `ok` but leaves the stale `agentProcessingError`
present — the claim's last conjunct (error absent after success even when a
previous attempt failed) is false of the code. -/
theorem processSession_stale_error_cex :
    (processSession wfNone pipeOk 2 storeAfterFail "S1").1 = .ok "r" ∧
      Store.field (processSession wfNone pipeOk 2 storeAfterFail "S1").2
        "S1" "agentProcessingError" = some (.str "rate limited") := by
  exact ⟨rfl, rfl⟩

end ClaimC2

section ClaimC4

/-- C4: when the pipeline throws `e` on a completed, unprocessed record,
both the tick-path attempt (`processDoc`) and the manual path
(`processSession`) leave `agentProcessed` unchanged (still false/absent),
release the claim (`agentProcessing = false`), record
`agentProcessingError = e` and `agentProcessingFailed = now`, and the
record still satisfies the selector's candidate filter, so it is eligible
on the next tick. -/
theorem pipeline_failure_retains_candidate (wf : Wf) (pipe : Pipeline)
    (now : Nat) (s : Store) (id : String) (d : Doc) (e : String)
    (hg : s.get id = some d)
    (hst : d "status" = some (.str "completed"))
    (hnp : d "agentProcessed" ≠ some (.bool true))
    (hp : pipe id = .error e)
    (hw0 : wf id 0 = false) (hw2 : wf id 2 = false) :
    ((processDoc wf pipe now s id).2 = none ∧
      Store.field (processDoc wf pipe now s id).1 id "agentProcessed" =
        d "agentProcessed" ∧
      Store.field (processDoc wf pipe now s id).1 id "agentProcessing" =
        some (.bool false) ∧
      Store.field (processDoc wf pipe now s id).1 id "agentProcessingError" =
        some (.str e) ∧
      Store.field (processDoc wf pipe now s id).1 id
        "agentProcessingFailed" = some (.nat now) ∧
      ∃ d', Store.get (processDoc wf pipe now s id).1 id = some d' ∧
        isCandidate d' = true) ∧
    ((processSession wf pipe now s id).1 = .error e ∧
      Store.field (processSession wf pipe now s id).2 id "agentProcessed" =
        d "agentProcessed" ∧
      Store.field (processSession wf pipe now s id).2 id "agentProcessing" =
        some (.bool false) ∧
      Store.field (processSession wf pipe now s id).2 id
        "agentProcessingError" = some (.str e) ∧
      Store.field (processSession wf pipe now s id).2 id
        "agentProcessingFailed" = some (.nat now) ∧
      ∃ d', Store.get (processSession wf pipe now s id).2 id = some d' ∧
        isCandidate d' = true) := by
  have hget : (s.applyAt id fun d0 : Doc =>
      (d0.update (claimFields now)).update (failFields e now)).get id =
      some ((d.update (claimFields now)).update (failFields e now)) := by
    rw [get_applyAt_self, hg]
    rfl
  have hcand : isCandidate
      ((d.update (claimFields now)).update (failFields e now)) = true := by
    apply isCandidate_of
    · rw [afterFail_status]
      exact hst
    · rw [afterFail_processed]
      exact hnp
  constructor
  · rw [processDoc_pipe_err_eq wf pipe now s id e (has_of_get hg) hp hw0 hw2]
    refine ⟨rfl, ?_, ?_, ?_, ?_, ?_⟩
    · rw [field_applyAt_self _ hg]
      exact afterFail_processed d e now
    · rw [field_applyAt_self _ hg]
      exact update_apply_some _ rfl
    · rw [field_applyAt_self _ hg]
      exact update_apply_some _ rfl
    · rw [field_applyAt_self _ hg]
      exact update_apply_some _ rfl
    · exact ⟨_, hget, hcand⟩
  · rw [processSession_pipe_err_eq wf pipe now s id d e hg hst hp hw0 hw2]
    refine ⟨rfl, ?_, ?_, ?_, ?_, ?_⟩
    · rw [field_applyAt_self _ hg]
      exact afterFail_processed d e now
    · rw [field_applyAt_self _ hg]
      exact update_apply_some _ rfl
    · rw [field_applyAt_self _ hg]
      exact update_apply_some _ rfl
    · rw [field_applyAt_self _ hg]
      exact update_apply_some _ rfl
    · exact ⟨_, hget, hcand⟩

/-- Witness for C4 (the spec's Scenario D): the pipeline throws
`rate limited` on the concrete record and the record stays a candidate. -/
theorem pipeline_failure_retains_candidate_witness :
    (processSession wfNone pipeRL 1 storeOne "S1").1 =
        .error "rate limited" ∧
      Store.field storeAfterFail "S1" "agentProcessingError" =
        some (.str "rate limited") ∧
      ∃ d', Store.get storeAfterFail "S1" = some d' ∧
        isCandidate d' = true := by
  have h := (pipeline_failure_retains_candidate wfNone pipeRL 1 storeOne
    "S1" (mkDoc [("status", .str "completed"), ("analysisCompleted", .nat 9)])
    "rate limited" rfl rfl (by decide) rfl rfl rfl).2
  exact ⟨h.1, h.2.2.2.1, h.2.2.2.2.2⟩

end ClaimC4

section ClaimC3

/-- C3 (amended): the manual path re-fetches the record and, when its
status is no longer `completed`, throws the precondition error without ever
consulting the pipeline (the outcome is identical for any two pipelines);
the periodic tick path, by contrast, performs no re-fetch and no status
validation — its attempt claims the record and invokes the pipeline
unconditionally, recording success even though the record's status is not
`completed`. -/
theorem precondition_check_paths (wf : Wf) (pipe pipe' : Pipeline)
    (now : Nat) (s : Store) (id : String) (d : Doc) (r : String)
    (hg : s.get id = some d)
    (hst : d "status" ≠ some (.str "completed"))
    (hp : pipe id = .ok r)
    (hw0 : wf id 0 = false) (hw1 : wf id 1 = false) :
    processSession wf pipe now s id = processSession wf pipe' now s id ∧
      (processSession wf pipe now s id).1 = .error (precondMsg id d) ∧
      (processDoc wf pipe now s id).2 = none ∧
      Store.field (processDoc wf pipe now s id).1 id "agentProcessed" =
        some (.bool true) ∧
      Store.field (processDoc wf pipe now s id).1 id "agentResult" =
        some (.str r) := by
  refine ⟨?_, ?_, ?_, ?_, ?_⟩
  · rw [processSession_precond_eq wf pipe now s id d hg hst,
      processSession_precond_eq wf pipe' now s id d hg hst]
  · rw [processSession_precond_eq wf pipe now s id d hg hst]
    unfold psFail
    cases h : writeDoc wf 2 s id (failFields (precondMsg id d) now) <;> rfl
  · rw [processDoc_ok_eq wf pipe now s id r (has_of_get hg) hp hw0 hw1]
  · rw [processDoc_ok_eq wf pipe now s id r (has_of_get hg) hp hw0 hw1]
    rw [field_applyAt_self _ hg]
    exact update_apply_some _ rfl
  · rw [processDoc_ok_eq wf pipe now s id r (has_of_get hg) hp hw0 hw1]
    rw [field_applyAt_self _ hg]
    exact update_apply_some _ rfl

/-- Witness for C3's amended theorem on the concrete `processing` record. -/
theorem precondition_check_paths_witness :
    (processSession wfNone pipeOk 4 storeProc "S2").1 =
        .error "Session S2 is not completed yet (status: processing)" ∧
      Store.field (processDoc wfNone pipeOk 4 storeProc "S2").1 "S2"
        "agentProcessed" = some (.bool true) := by
  have h := precondition_check_paths wfNone pipeOk pipeRL 4 storeProc "S2"
    (mkDoc [("status", .str "processing")]) "r" rfl (by decide) rfl rfl rfl
  exact ⟨h.2.1, h.2.2.2.1⟩

/-- Counterexample to C3 as stated: on the tick path the attempt on a
record whose status is `processing` (no longer `completed`) does not fail
fast — it claims the record, invokes the pipeline, and records a success,
writing `agentProcessed = true` and `agentResult`. -/
theorem tick_no_status_check_cex :
    mkDoc [("status", .str "processing")] "status" ≠
        some (.str "completed") ∧
      (processDoc wfNone pipeOk 4 storeProc "S2").2 = none ∧
      Store.field (processDoc wfNone pipeOk 4 storeProc "S2").1 "S2"
        "agentProcessed" = some (.bool true) ∧
      Store.field (processDoc wfNone pipeOk 4 storeProc "S2").1 "S2"
        "agentResult" = some (.str "r") := by
  exact ⟨by decide, rfl, rfl, rfl⟩

end ClaimC3

section FrameLemmas

lemma writeDoc_ok_inv {wf : Wf} {slot : Nat} {s : Store} {id : String}
    {fs : Fields} {s' : Store} (h : writeDoc wf slot s id fs = .ok s') :
    s' = s.applyAt id fun d : Doc => d.update fs := by
  unfold writeDoc at h
  split at h
  · exact absurd h (by simp)
  · unfold Store.updateF at h
    split at h
    · injection h with h'
      exact h'.symm
    · exact absurd h (by simp)

lemma field_congr {s t : Store} {rid : String}
    (h : s.get rid = t.get rid) (k : String) :
    s.field rid k = t.field rid k := by
  rw [Store.field, Store.field, h]

lemma nonAgentPres_refl (s : Store) : NonAgentPres s s := fun _ _ _ => rfl

lemma nonAgentPres_trans {s t u : Store}
    (h1 : NonAgentPres s t) (h2 : NonAgentPres t u) : NonAgentPres s u :=
  fun rid k hk => (h2 rid k hk).trans (h1 rid k hk)

lemma nonAgentPres_applyAt {s : Store} {id : String} {fs : Fields}
    (hfs : ∀ p ∈ fs, agentField p.1 = true) :
    NonAgentPres s (s.applyAt id fun d : Doc => d.update fs) := by
  intro rid k hk
  by_cases h : rid = id
  · subst h
    cases hget : s.get rid with
    | none =>
      rw [Store.field, Store.field, get_applyAt_self, hget]
      rfl
    | some d =>
      rw [field_applyAt_self _ hget, field_eq_of_get hget]
      exact update_apply_none _ (lookupF_agent_none hfs hk)
  · exact field_congr (get_applyAt_ne s _ h) k

lemma nonAgentPres_writeDoc {wf : Wf} {slot : Nat} {s : Store} {id : String}
    {fs : Fields} {s' : Store} (h : writeDoc wf slot s id fs = .ok s')
    (hfs : ∀ p ∈ fs, agentField p.1 = true) : NonAgentPres s s' := by
  rw [writeDoc_ok_inv h]
  exact nonAgentPres_applyAt hfs

lemma nonAgentPres_tickFail (wf : Wf) (now : Nat) (s : Store) (id e : String) :
    NonAgentPres s (tickFail wf now s id e).1 := by
  unfold tickFail
  cases h : writeDoc wf 2 s id (failFields e now) with
  | ok s' => exact nonAgentPres_writeDoc h failFields_keys
  | error e2 => exact nonAgentPres_refl s

lemma nonAgentPres_processDoc (wf : Wf) (pipe : Pipeline) (now : Nat)
    (s : Store) (id : String) :
    NonAgentPres s (processDoc wf pipe now s id).1 := by
  cases h0 : writeDoc wf 0 s id (claimFields now) with
  | error e =>
    simp only [processDoc, h0]
    exact nonAgentPres_tickFail wf now s id e
  | ok s1 =>
    have hp1 : NonAgentPres s s1 := nonAgentPres_writeDoc h0 claimFields_keys
    cases hp : pipe id with
    | error e =>
      simp only [processDoc, h0, hp]
      exact nonAgentPres_trans hp1 (nonAgentPres_tickFail wf now s1 id e)
    | ok r =>
      cases h1 : writeDoc wf 1 s1 id (successFields r now) with
      | ok s2 =>
        simp only [processDoc, h0, hp, h1]
        exact nonAgentPres_trans hp1
          (nonAgentPres_writeDoc h1 successFields_keys)
      | error e =>
        simp only [processDoc, h0, hp, h1]
        exact nonAgentPres_trans hp1 (nonAgentPres_tickFail wf now s1 id e)

lemma nonAgentPres_processDocs (wf : Wf) (pipe : Pipeline) (now : Nat) :
    ∀ (docs : List (String × Doc)) (s : Store),
      NonAgentPres s (processDocs wf pipe now docs s).1
  | [], s => nonAgentPres_refl s
  | (id, d) :: rest, s => by
    cases h : processDoc wf pipe now s id with
    | mk s' oe =>
      have hstep : NonAgentPres s s' := by
        have hh := nonAgentPres_processDoc wf pipe now s id
        rw [h] at hh
        exact hh
      cases oe with
      | none =>
        simp only [processDocs, h]
        exact nonAgentPres_trans hstep
          (nonAgentPres_processDocs wf pipe now rest s')
      | some e =>
        simp only [processDocs, h]
        exact hstep

lemma nonAgentPres_psFail (wf : Wf) (now : Nat) (s : Store) (id e : String) :
    NonAgentPres s (psFail wf now s id e).2 := by
  unfold psFail
  cases h : writeDoc wf 2 s id (failFields e now) with
  | ok s' => exact nonAgentPres_writeDoc h failFields_keys
  | error e2 => exact nonAgentPres_refl s

lemma nonAgentPres_processSession (wf : Wf) (pipe : Pipeline) (now : Nat)
    (s : Store) (id : String) :
    NonAgentPres s (processSession wf pipe now s id).2 := by
  cases hg : s.get id with
  | none =>
    simp only [processSession, hg]
    exact nonAgentPres_psFail wf now s id _
  | some d =>
    by_cases hst : d "status" ≠ some (.str "completed")
    · simp only [processSession, hg]
      rw [if_pos hst]
      exact nonAgentPres_psFail wf now s id _
    · cases h0 : writeDoc wf 0 s id (claimFields now) with
      | error e =>
        simp only [processSession, hg, h0]
        rw [if_neg hst]
        exact nonAgentPres_psFail wf now s id e
      | ok s1 =>
        have hp1 : NonAgentPres s s1 :=
          nonAgentPres_writeDoc h0 claimFields_keys
        cases hp : pipe id with
        | error e =>
          simp only [processSession, hg, h0, hp]
          rw [if_neg hst]
          exact nonAgentPres_trans hp1 (nonAgentPres_psFail wf now s1 id e)
        | ok r =>
          cases h1 : writeDoc wf 1 s1 id (successFields r now) with
          | ok s2 =>
            simp only [processSession, hg, h0, hp, h1]
            rw [if_neg hst]
            exact nonAgentPres_trans hp1
              (nonAgentPres_writeDoc h1 successFields_keys)
          | error e =>
            simp only [processSession, hg, h0, hp, h1]
            rw [if_neg hst]
            exact nonAgentPres_trans hp1 (nonAgentPres_psFail wf now s1 id e)

end FrameLemmas

section ClaimC8

/-- C8: every store write of the Completion Monitor is a partial merge that
only touches `agent*` fields — after a scheduler tick (`checkSessions`) and
after any manual trigger (`processSession`), every field whose name does
not begin with `agent` (in particular `status` and all analysis fields) of
every record has exactly its previous value. -/
theorem monitor_touches_only_agent_fields (wf : Wf) (pipe : Pipeline)
    (now : Nat) (s : Store) (id rid k : String)
    (hk : agentField k = false) :
    Store.field (checkSessions wf pipe now s) rid k = Store.field s rid k ∧
      Store.field (processSession wf pipe now s id).2 rid k =
        Store.field s rid k :=
  ⟨nonAgentPres_processDocs wf pipe now (queryDocs s) s rid k hk,
    nonAgentPres_processSession wf pipe now s id rid k hk⟩

/-- Witness for C8: on the concrete store, `status` and `analysisCompleted`
survive a tick and a manual trigger unchanged. -/
theorem monitor_touches_only_agent_fields_witness :
    agentField "status" = false ∧
      Store.field (checkSessions wfNone pipeOk 5 storeOne) "S1" "status" =
        some (.str "completed") ∧
      Store.field (processSession wfNone pipeRL 5 storeOne "S1").2 "S1"
        "analysisCompleted" = some (.nat 9) := by
  refine ⟨by decide, ?_, ?_⟩
  · rw [(monitor_touches_only_agent_fields wfNone pipeOk 5 storeOne "S1"
      "S1" "status" (by decide)).1]
    rfl
  · rw [(monitor_touches_only_agent_fields wfNone pipeRL 5 storeOne "S1"
      "S1" "analysisCompleted" (by decide)).2]
    rfl

end ClaimC8

section LoopLemmas

lemma insertBy_perm {α : Type} (le : α → α → Bool) (x : α) :
    ∀ l : List α, (insertBy le x l).Perm (x :: l)
  | [] => List.Perm.refl _
  | y :: ys => by
    rw [insertBy]
    by_cases h : le x y
    · rw [if_pos h]
    · rw [if_neg h]
      exact ((insertBy_perm le x ys).cons y).trans (List.Perm.swap x y ys)

lemma sortBy_perm {α : Type} (le : α → α → Bool) :
    ∀ l : List α, (sortBy le l).Perm l
  | [] => List.Perm.refl _
  | x :: xs =>
    (insertBy_perm le x (sortBy le xs)).trans ((sortBy_perm le xs).cons x)

lemma queryDocs_subset {s : Store} {p : String × Doc}
    (h : p ∈ queryDocs s) : p ∈ s := by
  have h1 : p ∈ sortBy candLE (candidates s) := List.take_subset 5 _ h
  have h2 : p ∈ candidates s :=
    (sortBy_perm candLE (candidates s)).mem_iff.mp h1
  exact List.mem_of_mem_filter h2

lemma isCandidate_of_mem_queryDocs {s : Store} {p : String × Doc}
    (h : p ∈ queryDocs s) : isCandidate p.2 = true := by
  have h1 : p ∈ sortBy candLE (candidates s) := List.take_subset 5 _ h
  have h2 : p ∈ candidates s :=
    (sortBy_perm candLE (candidates s)).mem_iff.mp h1
  exact (List.mem_filter.mp h2).2

lemma has_of_mem {s : Store} {p : String × Doc} (h : p ∈ s) :
    s.has p.1 = true := by
  induction s with
  | nil => cases h
  | cons q rest ih =>
    obtain ⟨i, d⟩ := q
    rw [Store.has, Store.get]
    by_cases hh : p.1 = i
    · rw [if_pos hh]
      rfl
    · rw [if_neg hh]
      rcases List.mem_cons.mp h with h1 | h1
      · exact absurd (congrArg Prod.fst h1) hh
      · exact ih h1

lemma queryIds_nodup {s : Store}
    (hnd : (List.map (fun p : String × Doc => p.1) s).Nodup) :
    (List.map (fun p : String × Doc => p.1) (queryDocs s)).Nodup := by
  have hcand : (List.map (fun p : String × Doc => p.1)
      (candidates s)).Nodup :=
    hnd.sublist ((List.filter_sublist s).map _)
  have hsort : (List.map (fun p : String × Doc => p.1)
      (sortBy candLE (candidates s))).Nodup :=
    ((sortBy_perm candLE (candidates s)).map _).nodup_iff.mpr hcand
  exact hsort.sublist ((List.take_sublist 5 _).map _)

lemma has_tickFail (wf : Wf) (now : Nat) (s : Store) (id e rid : String) :
    ((tickFail wf now s id e).1).has rid = s.has rid := by
  cases h : writeDoc wf 2 s id (failFields e now) with
  | ok s' =>
    simp only [tickFail, h]
    rw [writeDoc_ok_inv h]
    exact has_applyAt s id rid _
  | error e2 =>
    simp only [tickFail, h]

lemma has_processDoc (wf : Wf) (pipe : Pipeline) (now : Nat) (s : Store)
    (id rid : String) :
    ((processDoc wf pipe now s id).1).has rid = s.has rid := by
  cases h0 : writeDoc wf 0 s id (claimFields now) with
  | error e =>
    simp only [processDoc, h0]
    exact has_tickFail wf now s id e rid
  | ok s1 =>
    have hs1 : s1.has rid = s.has rid := by
      rw [writeDoc_ok_inv h0]
      exact has_applyAt s id rid _
    cases hp : pipe id with
    | error e =>
      simp only [processDoc, h0, hp]
      rw [has_tickFail wf now s1 id e rid]
      exact hs1
    | ok r =>
      cases h1 : writeDoc wf 1 s1 id (successFields r now) with
      | ok s2 =>
        simp only [processDoc, h0, hp, h1]
        rw [writeDoc_ok_inv h1, has_applyAt]
        exact hs1
      | error e =>
        simp only [processDoc, h0, hp, h1]
        rw [has_tickFail wf now s1 id e rid]
        exact hs1

lemma get_tickFail_ne (wf : Wf) (now : Nat) (s : Store) {id : String}
    (e : String) {rid : String} (h : rid ≠ id) :
    ((tickFail wf now s id e).1).get rid = s.get rid := by
  cases hw : writeDoc wf 2 s id (failFields e now) with
  | ok s' =>
    simp only [tickFail, hw]
    rw [writeDoc_ok_inv hw]
    exact get_applyAt_ne s _ h
  | error e2 =>
    simp only [tickFail, hw]

lemma get_processDoc_ne (wf : Wf) (pipe : Pipeline) (now : Nat) (s : Store)
    {id rid : String} (h : rid ≠ id) :
    ((processDoc wf pipe now s id).1).get rid = s.get rid := by
  cases h0 : writeDoc wf 0 s id (claimFields now) with
  | error e =>
    simp only [processDoc, h0]
    exact get_tickFail_ne wf now s e h
  | ok s1 =>
    have hs1 : s1.get rid = s.get rid := by
      rw [writeDoc_ok_inv h0]
      exact get_applyAt_ne s _ h
    cases hp : pipe id with
    | error e =>
      simp only [processDoc, h0, hp]
      rw [get_tickFail_ne wf now s1 e h]
      exact hs1
    | ok r =>
      cases h1 : writeDoc wf 1 s1 id (successFields r now) with
      | ok s2 =>
        simp only [processDoc, h0, hp, h1]
        rw [writeDoc_ok_inv h1, get_applyAt_ne _ _ h]
        exact hs1
      | error e =>
        simp only [processDoc, h0, hp, h1]
        rw [get_tickFail_ne wf now s1 e h]
        exact hs1

lemma get_processDocs_notin (wf : Wf) (pipe : Pipeline) (now : Nat) :
    ∀ (docs : List (String × Doc)) (s : Store) (rid : String),
      rid ∉ List.map (fun p : String × Doc => p.1) docs →
      ((processDocs wf pipe now docs s).1).get rid = s.get rid
  | [], _, _, _ => rfl
  | (id, d) :: rest, s, rid, hnot => by
    have hne : rid ≠ id := fun h => hnot (by simp [h])
    have hrest : rid ∉ List.map (fun p : String × Doc => p.1) rest :=
      fun h => hnot (by simp [h])
    cases h : processDoc wf pipe now s id with
    | mk s' oe =>
      have hs' : s'.get rid = s.get rid := by
        have hh := get_processDoc_ne wf pipe now s hne
        rw [h] at hh
        exact hh
      cases oe with
      | none =>
        simp only [processDocs, h]
        rw [get_processDocs_notin wf pipe now rest s' rid hrest]
        exact hs'
      | some e =>
        simp only [processDocs, h]
        exact hs'

lemma processDoc_no_abort (wf : Wf) (pipe : Pipeline) (now : Nat)
    (s : Store) (id : String) (hh : s.has id = true)
    (hw2 : wf id 2 = false) :
    (processDoc wf pipe now s id).2 = none := by
  cases h0 : writeDoc wf 0 s id (claimFields now) with
  | error e =>
    simp only [processDoc, h0, tickFail, writeDoc_ok (failFields e now) hw2 hh]
  | ok s1 =>
    have hh1 : s1.has id = true := by
      rw [writeDoc_ok_inv h0, has_applyAt]
      exact hh
    cases hp : pipe id with
    | error e =>
      simp only [processDoc, h0, hp, tickFail,
        writeDoc_ok (failFields e now) hw2 hh1]
    | ok r =>
      cases h1 : writeDoc wf 1 s1 id (successFields r now) with
      | ok s2 => simp only [processDoc, h0, hp, h1]
      | error e =>
        simp only [processDoc, h0, hp, h1, tickFail,
          writeDoc_ok (failFields e now) hw2 hh1]

lemma processDoc_attempted (wf : Wf) (pipe : Pipeline) (now : Nat)
    (s : Store) (id : String) (d0 : Doc) (hget : s.get id = some d0)
    (hw2 : wf id 2 = false) :
    Attempted ((processDoc wf pipe now s id).1) id now := by
  have hh : s.has id = true := has_of_get hget
  cases h0 : writeDoc wf 0 s id (claimFields now) with
  | error e =>
    right
    simp only [processDoc, h0, tickFail, writeDoc_ok (failFields e now) hw2 hh]
    rw [field_applyAt_self _ hget]
    exact update_apply_some _ rfl
  | ok s1 =>
    have hs1 : s1 = s.applyAt id fun d : Doc => d.update (claimFields now) :=
      writeDoc_ok_inv h0
    have hget1 : s1.get id = some (d0.update (claimFields now)) := by
      rw [hs1, get_applyAt_self, hget]
      rfl
    have hh1 : s1.has id = true := has_of_get hget1
    have hstart : (d0.update (claimFields now)) "agentProcessingStarted" =
        some (.nat now) := update_apply_some _ rfl
    cases hp : pipe id with
    | error e =>
      left
      simp only [processDoc, h0, hp, tickFail,
        writeDoc_ok (failFields e now) hw2 hh1]
      rw [field_applyAt_self _ hget1]
      have hnone : ((d0.update (claimFields now)).update (failFields e now))
          "agentProcessingStarted" =
          (d0.update (claimFields now)) "agentProcessingStarted" :=
        update_apply_none _ rfl
      rw [hnone]
      exact hstart
    | ok r =>
      cases h1 : writeDoc wf 1 s1 id (successFields r now) with
      | ok s2 =>
        left
        simp only [processDoc, h0, hp, h1]
        rw [writeDoc_ok_inv h1, field_applyAt_self _ hget1]
        have hnone : ((d0.update (claimFields now)).update
            (successFields r now)) "agentProcessingStarted" =
            (d0.update (claimFields now)) "agentProcessingStarted" :=
          update_apply_none _ rfl
        rw [hnone]
        exact hstart
      | error e =>
        left
        simp only [processDoc, h0, hp, h1, tickFail,
          writeDoc_ok (failFields e now) hw2 hh1]
        rw [field_applyAt_self _ hget1]
        have hnone : ((d0.update (claimFields now)).update (failFields e now))
            "agentProcessingStarted" =
            (d0.update (claimFields now)) "agentProcessingStarted" :=
          update_apply_none _ rfl
        rw [hnone]
        exact hstart

lemma processDocs_ok_attempts (wf : Wf) (pipe : Pipeline) (now : Nat) :
    ∀ (docs : List (String × Doc)) (s : Store),
      (∀ p ∈ docs, s.has p.1 = true) →
      (∀ p ∈ docs, wf p.1 2 = false) →
      (List.map (fun p : String × Doc => p.1) docs).Nodup →
      (processDocs wf pipe now docs s).2 = none ∧
        ∀ p ∈ docs, Attempted ((processDocs wf pipe now docs s).1) p.1 now
  | [], s, _, _, _ => ⟨rfl, fun p hp => absurd hp (List.not_mem_nil p)⟩
  | (id, d) :: rest, s, hids, hw2, hnd => by
    have hhas : s.has id = true := hids (id, d) (List.mem_cons_self _ _)
    obtain ⟨d0, hget⟩ := Option.isSome_iff_exists.mp hhas
    have hno : (processDoc wf pipe now s id).2 = none :=
      processDoc_no_abort wf pipe now s id hhas
        (hw2 (id, d) (List.mem_cons_self _ _))
    have hatt : Attempted ((processDoc wf pipe now s id).1) id now :=
      processDoc_attempted wf pipe now s id d0 hget
        (hw2 (id, d) (List.mem_cons_self _ _))
    cases h : processDoc wf pipe now s id with
    | mk s' oe =>
      rw [h] at hno
      cases oe with
      | some e => exact absurd hno (by simp)
      | none =>
        rw [h] at hatt
        have hnotin : id ∉ List.map (fun p : String × Doc => p.1) rest :=
          (List.nodup_cons.mp hnd).1
        have hids' : ∀ p ∈ rest, s'.has p.1 = true := by
          intro p hp
          have hh := has_processDoc wf pipe now s id p.1
          rw [h] at hh
          rw [hh]
          exact hids p (List.mem_cons_of_mem _ hp)
        have ih := processDocs_ok_attempts wf pipe now rest s' hids'
          (fun p hp => hw2 p (List.mem_cons_of_mem _ hp))
          (List.nodup_cons.mp hnd).2
        refine ⟨by simpa only [processDocs, h] using ih.1, ?_⟩
        intro p hp
        rcases List.mem_cons.mp hp with h1 | h1
        · have hgeteq : ((processDocs wf pipe now rest s').1).get id =
              s'.get id :=
            get_processDocs_notin wf pipe now rest s' id hnotin
          have : Attempted ((processDocs wf pipe now rest s').1) id now := by
            unfold Attempted at hatt ⊢
            rw [field_congr hgeteq, field_congr hgeteq]
            exact hatt
          rw [h1]
          simpa only [processDocs, h] using this
        · simpa only [processDocs, h] using ih.2 p h1

end LoopLemmas

section ClaimC5

/-- C5 (amended): a per-candidate failure whose failure-recording write
succeeds does not abort the tick — whenever every selected candidate's
failure-recording write is reliable (the pipeline and the other writes may
throw arbitrarily), the loop reports no error and every selected candidate
is attempted; and `checkSessions` never propagates any error to the
scheduler loop (its outermost catch always yields the store reached).
However, if a candidate's failure-recording write itself throws, the
remaining candidates of that tick are skipped (see the counterexample). -/
theorem tick_error_containment (wf : Wf) (pipe : Pipeline) (now : Nat)
    (s : Store)
    (hw2 : ∀ p ∈ queryDocs s, wf p.1 2 = false)
    (hnd : (List.map (fun p : String × Doc => p.1) s).Nodup) :
    (checkSessionsE wf pipe now s).2 = none ∧
      (∀ p ∈ queryDocs s, Attempted (checkSessions wf pipe now s) p.1 now) ∧
      ∀ (wf' : Wf) (pipe' : Pipeline) (now' : Nat) (s' : Store),
        checkSessions wf' pipe' now' s' =
          (checkSessionsE wf' pipe' now' s').1 := by
  have main := processDocs_ok_attempts wf pipe now (queryDocs s) s
    (fun p hp => has_of_mem (queryDocs_subset hp)) hw2 (queryIds_nodup hnd)
  exact ⟨main.1, main.2, fun _ _ _ _ => rfl⟩

/-- Witness for C5's amended theorem: with reliable failure-recording
writes, `A`'s pipeline failure does not prevent `B` from being attempted. -/
theorem tick_error_containment_witness :
    (checkSessionsE wfNone pipeFailA 7 storeAB).2 = none ∧
      Attempted (checkSessions wfNone pipeFailA 7 storeAB) "B" 7 := by
  have h := tick_error_containment wfNone pipeFailA 7 storeAB
    (fun p _ => rfl) (by decide)
  exact ⟨h.1, h.2.1
    ("B", mkDoc [("status", .str "completed"), ("analysisCompleted", .nat 5)])
    (List.Mem.tail _ (List.Mem.head _))⟩

/-- Counterexample to C5 as stated: candidate `A`'s pipeline throws and its
failure-recording write also throws; the error escapes the per-candidate
handler, so candidate `B` — although selected by the query — is never
attempted in that tick (no claim stamp and no failure stamp), while the
tick itself still swallows the error. -/
theorem tick_abort_on_failrecord_cex :
    "B" ∈ queryIds storeAB ∧
      (checkSessionsE wfFailA pipeFailA 7 storeAB).2 =
        some "store unavailable" ∧
      Store.field (checkSessions wfFailA pipeFailA 7 storeAB) "B"
        "agentProcessingStarted" = none ∧
      Store.field (checkSessions wfFailA pipeFailA 7 storeAB) "B"
        "agentProcessingFailed" = none := by
  exact ⟨by decide, rfl, rfl, rfl⟩

end ClaimC5

section InvariantLemmas

lemma mem_of_get : ∀ {s : Store} {id : String} {d : Doc},
    s.get id = some d → (id, d) ∈ s
  | [], _, _, h => by cases h
  | (i, d0) :: rest, id, d, h => by
    rw [Store.get] at h
    by_cases hif : id = i
    · rw [if_pos hif] at h
      injection h with h'
      subst hif
      subst h'
      exact List.mem_cons_self _ _
    · rw [if_neg hif] at h
      exact List.mem_cons_of_mem _ (mem_of_get h)

lemma inv_update_fail {d : Doc} (hd : Inv d) (e : String) (t : Nat) :
    Inv (d.update (failFields e t)) := by
  intro hproc
  have hpr : (d.update (failFields e t)) "agentProcessed" =
      d "agentProcessed" := update_apply_none _ rfl
  rw [hpr] at hproc
  obtain ⟨_, v, h2⟩ := hd hproc
  refine ⟨update_apply_some _ rfl, v, ?_⟩
  have hres : (d.update (failFields e t)) "agentResult" = d "agentResult" :=
    update_apply_none _ rfl
  rw [hres, h2]

lemma inv_update_succ (d : Doc) (r : String) (t : Nat) :
    Inv (d.update (successFields r t)) := by
  intro _
  exact ⟨update_apply_some _ rfl, .str r, update_apply_some _ rfl⟩

lemma inv_claim_fail {d : Doc} (hd : Inv d) (tc : Nat) (e : String)
    (t : Nat) :
    Inv ((d.update (claimFields tc)).update (failFields e t)) := by
  intro hproc
  have h1 : ((d.update (claimFields tc)).update (failFields e t))
      "agentProcessed" = (d.update (claimFields tc)) "agentProcessed" :=
    update_apply_none _ rfl
  have h2 : (d.update (claimFields tc)) "agentProcessed" =
      d "agentProcessed" := update_apply_none _ rfl
  rw [h1, h2] at hproc
  obtain ⟨_, v, hv⟩ := hd hproc
  refine ⟨update_apply_some _ rfl, v, ?_⟩
  have h3 : ((d.update (claimFields tc)).update (failFields e t))
      "agentResult" = (d.update (claimFields tc)) "agentResult" :=
    update_apply_none _ rfl
  have h4 : (d.update (claimFields tc)) "agentResult" = d "agentResult" :=
    update_apply_none _ rfl
  rw [h3, h4, hv]

lemma storeInv_applyAt {id : String} {f : Doc → Doc}
    (hf : ∀ d : Doc, Inv d → Inv (f d)) :
    ∀ s : Store, StoreInv s → StoreInv (s.applyAt id f)
  | [], _ => fun p hp => absurd hp (List.not_mem_nil p)
  | (i, d) :: rest, hs => by
    intro p hp
    rw [Store.applyAt] at hp
    rcases List.mem_cons.mp hp with h1 | h1
    · by_cases hc : i = id
      · rw [if_pos hc] at h1
        subst h1
        exact hf d (hs (i, d) (List.mem_cons_self _ _))
      · rw [if_neg hc] at h1
        subst h1
        exact hs (i, d) (List.mem_cons_self _ _)
    · exact storeInv_applyAt hf rest
        (fun q hq => hs q (List.mem_cons_of_mem _ hq)) p h1

lemma writeDoc_err_wfNone {slot : Nat} {s : Store} {id : String}
    {fs : Fields} {e : String}
    (h : writeDoc wfNone slot s id fs = .error e) : s.has id = false := by
  have h' : s.updateF id fs = .error e := by
    simpa [writeDoc, wfNone] using h
  by_cases hc : s.has id
  · rw [updateF_ok _ hc] at h'
    exact absurd h' (by simp)
  · exact Bool.of_not_eq_true hc

lemma writeDoc_ok_has {wf : Wf} {slot : Nat} {s : Store} {id : String}
    {fs : Fields} {s' : Store}
    (h : writeDoc wf slot s id fs = .ok s') : s.has id = true := by
  by_cases hc : s.has id
  · exact hc
  · obtain ⟨e2, h2⟩ := writeDoc_missing wf slot fs (Bool.of_not_eq_true hc)
    rw [h] at h2
    exact absurd h2 (by simp)

lemma storeInv_processDoc (pipe : Pipeline) (now : Nat) (s : Store)
    (id : String) (hs : StoreInv s) :
    StoreInv ((processDoc wfNone pipe now s id).1) := by
  cases h0 : writeDoc wfNone 0 s id (claimFields now) with
  | error e =>
    have hhas : s.has id = false := writeDoc_err_wfNone h0
    obtain ⟨e2, h2⟩ := writeDoc_missing wfNone 2 (failFields e now) hhas
    simp only [processDoc, h0, tickFail, h2]
    exact hs
  | ok s1 =>
    have hs1 : s1 = s.applyAt id fun d : Doc => d.update (claimFields now) :=
      writeDoc_ok_inv h0
    have hhas1 : s1.has id = true := by
      rw [hs1, has_applyAt]
      exact writeDoc_ok_has h0
    cases hp : pipe id with
    | error e =>
      cases h2 : writeDoc wfNone 2 s1 id (failFields e now) with
      | error e2 =>
        have hf := writeDoc_err_wfNone h2
        rw [hhas1] at hf
        exact Bool.noConfusion hf
      | ok s2 =>
        simp only [processDoc, h0, hp, tickFail, h2]
        rw [writeDoc_ok_inv h2, hs1, applyAt_applyAt]
        exact storeInv_applyAt (fun d hd => inv_claim_fail hd now e now) s hs
    | ok r =>
      cases h1 : writeDoc wfNone 1 s1 id (successFields r now) with
      | ok s2 =>
        simp only [processDoc, h0, hp, h1]
        rw [writeDoc_ok_inv h1, hs1, applyAt_applyAt]
        exact storeInv_applyAt (fun d _ => inv_update_succ _ r now) s hs
      | error e =>
        have hf := writeDoc_err_wfNone h1
        rw [hhas1] at hf
        exact Bool.noConfusion hf

lemma storeInv_processDocs (pipe : Pipeline) (now : Nat) :
    ∀ (docs : List (String × Doc)) (s : Store), StoreInv s →
      StoreInv ((processDocs wfNone pipe now docs s).1)
  | [], s, hs => hs
  | (id, d) :: rest, s, hs => by
    cases h : processDoc wfNone pipe now s id with
    | mk s' oe =>
      have hs' : StoreInv s' := by
        have hh := storeInv_processDoc pipe now s id hs
        rw [h] at hh
        exact hh
      cases oe with
      | none =>
        simp only [processDocs, h]
        exact storeInv_processDocs pipe now rest s' hs'
      | some e =>
        simp only [processDocs, h]
        exact hs'

lemma storeInv_processSession (pipe : Pipeline) (now : Nat) (s : Store)
    (id : String) (hs : StoreInv s) :
    StoreInv ((processSession wfNone pipe now s id).2) := by
  cases hg : s.get id with
  | none =>
    have hhas : s.has id = false := has_none_of_get hg
    obtain ⟨e2, h2⟩ := writeDoc_missing wfNone 2
      (failFields ("Session " ++ id ++ " not found") now) hhas
    simp only [processSession, hg, psFail, h2]
    exact hs
  | some d =>
    have hhas : s.has id = true := has_of_get hg
    by_cases hst : d "status" ≠ some (.str "completed")
    · simp only [processSession, hg]
      rw [if_pos hst]
      unfold psFail
      rw [writeDoc_ok _ rfl hhas]
      exact storeInv_applyAt (fun d0 hd0 => inv_update_fail hd0 _ now) s hs
    · cases h0 : writeDoc wfNone 0 s id (claimFields now) with
      | error e =>
        have hf := writeDoc_err_wfNone h0
        rw [hhas] at hf
        exact Bool.noConfusion hf
      | ok s1 =>
        have hs1 : s1 = s.applyAt id
            fun d0 : Doc => d0.update (claimFields now) :=
          writeDoc_ok_inv h0
        have hhas1 : s1.has id = true := by
          rw [hs1, has_applyAt]
          exact hhas
        cases hp : pipe id with
        | error e =>
          simp only [processSession, hg, h0, hp]
          rw [if_neg hst]
          unfold psFail
          rw [writeDoc_ok _ rfl hhas1]
          rw [hs1, applyAt_applyAt]
          exact storeInv_applyAt
            (fun d0 hd0 => inv_claim_fail hd0 now e now) s hs
        | ok r =>
          cases h1 : writeDoc wfNone 1 s1 id (successFields r now) with
          | ok s2 =>
            simp only [processSession, hg, h0, hp, h1]
            rw [if_neg hst]
            rw [writeDoc_ok_inv h1, hs1, applyAt_applyAt]
            exact storeInv_applyAt
              (fun d0 _ => inv_update_succ _ r now) s hs
          | error e =>
            have hf := writeDoc_err_wfNone h1
            rw [hhas1] at hf
            exact Bool.noConfusion hf

lemma storeInv_init {s : Store} (hinit : InitOk s) : StoreInv s := by
  intro p hp hproc
  have hnone : p.2 "agentProcessed" = none := hinit p hp "agentProcessed" rfl
  rw [hnone] at hproc
  exact Option.noConfusion hproc

end InvariantLemmas

section ClaimC6

/-- C6 (amended): in every state reachable from an agent-field-free store
by complete monitor operations whose store writes all succeed, every record
with `agentProcessed = true` also has `agentProcessing = false` and a
present `agentResult` — the only write that sets `agentProcessed = true`
also sets the other two in the same merge. The restriction to reliable
writes is necessary: see the counterexample, where a repeat manual trigger
on an already-processed record whose two terminal writes both fail leaves
`agentProcessed = true` with `agentProcessing = true`. -/
theorem terminal_state_invariant (s₀ s : Store) (hinit : InitOk s₀)
    (hr : ReachableOk s₀ s) :
    ∀ (id : String) (d : Doc), s.get id = some d →
      d "agentProcessed" = some (.bool true) →
      d "agentProcessing" = some (.bool false) ∧
        ∃ v, d "agentResult" = some v := by
  have hsi : StoreInv s := by
    induction hr with
    | refl s' => exact storeInv_init hinit
    | tick pipe now hr' ih => exact storeInv_processDocs pipe now _ _ (ih hinit)
    | manual pipe now id hr' ih =>
      exact storeInv_processSession pipe now _ id (ih hinit)
  intro id d hget hproc
  exact hsi (id, d) (mem_of_get hget) hproc

/-- All agent fields of `storeOne` are absent initially. -/
lemma initOk_storeOne : InitOk storeOne := by
  intro p hp k hk
  rcases List.mem_cons.mp hp with h1 | h1
  · rw [h1]
    apply lookupF_none_of_keys
    intro q hq
    rcases List.mem_cons.mp hq with h2 | h2
    · rw [h2]
      intro he
      rw [← he] at hk
      exact absurd hk (by decide)
    · rcases List.mem_cons.mp h2 with h3 | h3
      · rw [h3]
        intro he
        rw [← he] at hk
        exact absurd hk (by decide)
      · exact absurd h3 (List.not_mem_nil q)
  · exact absurd h1 (List.not_mem_nil p)

/-- Witness for C6's amended theorem: after one reliable successful run,
the processed record satisfies the invariant. -/
theorem terminal_state_invariant_witness :
    Store.field storeOnceOk "S1" "agentProcessed" = some (.bool true) ∧
      Store.field storeOnceOk "S1" "agentProcessing" = some (.bool false) ∧
      ∃ v, Store.field storeOnceOk "S1" "agentResult" = some v := by
  have hreach : ReachableOk storeOne storeOnceOk :=
    ReachableOk.manual pipeOk 1 "S1" (ReachableOk.refl storeOne)
  have h := terminal_state_invariant storeOne storeOnceOk initOk_storeOne
    hreach "S1"
    ((mkDoc [("status", .str "completed"), ("analysisCompleted", .nat 9)]
        |>.update (claimFields 1)).update (successFields "r" 1))
    rfl rfl
  exact ⟨rfl, by rw [Store.field]; exact h.1.symm ▸ h.1, by
    obtain ⟨v, hv⟩ := h.2
    exact ⟨v, by rw [Store.field]; exact hv⟩⟩

/-- Counterexample to C6 as stated: `storeBroken` is reachable from the
agent-field-free `storeOne` by two manual monitor operations, yet its
record has `agentProcessed = true` together with `agentProcessing = true` —
the claim write of a repeat `processSession` on an already-processed record
set `agentProcessing`, and both terminal writes failed, so the invariant is
violated in a reachable state. -/
theorem invariant_break_cex :
    InitOk storeOne ∧ Reachable storeOne storeBroken ∧
      Store.field storeBroken "S1" "agentProcessed" = some (.bool true) ∧
      Store.field storeBroken "S1" "agentProcessing" = some (.bool true) := by
  refine ⟨initOk_storeOne, ?_, rfl, rfl⟩
  exact Reachable.manual wfLate pipeOk 2 "S1"
    (Reachable.manual wfNone pipeOk 1 "S1" (Reachable.refl storeOne))

end ClaimC6

section SelectionLemmas

lemma ids_applyAt (id : String) (f : Doc → Doc) :
    ∀ s : Store, List.map (fun p : String × Doc => p.1) (s.applyAt id f) =
      List.map (fun p : String × Doc => p.1) s
  | [] => rfl
  | (i, d) :: rest => by
    rw [Store.applyAt]
    by_cases h : i = id
    · rw [if_pos h, List.map_cons, List.map_cons, ids_applyAt id f rest]
    · rw [if_neg h, List.map_cons, List.map_cons, ids_applyAt id f rest]

lemma ids_tickFail (wf : Wf) (now : Nat) (s : Store) (id e : String) :
    List.map (fun p : String × Doc => p.1) ((tickFail wf now s id e).1) =
      List.map (fun p : String × Doc => p.1) s := by
  cases h : writeDoc wf 2 s id (failFields e now) with
  | ok s' =>
    simp only [tickFail, h]
    rw [writeDoc_ok_inv h]
    exact ids_applyAt id _ s
  | error e2 => simp only [tickFail, h]

lemma ids_processDoc (wf : Wf) (pipe : Pipeline) (now : Nat) (s : Store)
    (id : String) :
    List.map (fun p : String × Doc => p.1) ((processDoc wf pipe now s id).1) =
      List.map (fun p : String × Doc => p.1) s := by
  cases h0 : writeDoc wf 0 s id (claimFields now) with
  | error e =>
    simp only [processDoc, h0]
    exact ids_tickFail wf now s id e
  | ok s1 =>
    have hs1 : List.map (fun p : String × Doc => p.1) s1 =
        List.map (fun p : String × Doc => p.1) s := by
      rw [writeDoc_ok_inv h0]
      exact ids_applyAt id _ s
    cases hp : pipe id with
    | error e =>
      simp only [processDoc, h0, hp]
      rw [ids_tickFail wf now s1 id e, hs1]
    | ok r =>
      cases h1 : writeDoc wf 1 s1 id (successFields r now) with
      | ok s2 =>
        simp only [processDoc, h0, hp, h1]
        rw [writeDoc_ok_inv h1, ids_applyAt id _ s1, hs1]
      | error e =>
        simp only [processDoc, h0, hp, h1]
        rw [ids_tickFail wf now s1 id e, hs1]

lemma ids_processDocs (wf : Wf) (pipe : Pipeline) (now : Nat) :
    ∀ (docs : List (String × Doc)) (s : Store),
      List.map (fun p : String × Doc => p.1)
          ((processDocs wf pipe now docs s).1) =
        List.map (fun p : String × Doc => p.1) s
  | [], _ => rfl
  | (id, d) :: rest, s => by
    cases h : processDoc wf pipe now s id with
    | mk s' oe =>
      have hs' : List.map (fun p : String × Doc => p.1) s' =
          List.map (fun p : String × Doc => p.1) s := by
        have hh := ids_processDoc wf pipe now s id
        rw [h] at hh
        exact hh
      cases oe with
      | none =>
        simp only [processDocs, h]
        rw [ids_processDocs wf pipe now rest s', hs']
      | some e =>
        simp only [processDocs, h]
        exact hs'

lemma get_of_mem_nodup :
    ∀ {s : Store},
      (List.map (fun p : String × Doc => p.1) s).Nodup →
      ∀ {id : String} {d : Doc}, (id, d) ∈ s → s.get id = some d
  | [], _, id, d, h => by cases h
  | (i, d0) :: rest, hnd, id, d, h => by
    rw [Store.get]
    rcases List.mem_cons.mp h with h1 | h1
    · obtain ⟨h2, h3⟩ := Prod.mk.injEq .. ▸ h1
      rw [if_pos h2, h3]
    · by_cases hif : id = i
      · exfalso
        have hhead : i ∉ List.map (fun p : String × Doc => p.1) rest :=
          (List.nodup_cons.mp hnd).1
        apply hhead
        rw [← hif]
        exact List.mem_map.mpr ⟨(id, d), h1, rfl⟩
      · rw [if_neg hif]
        exact get_of_mem_nodup (List.nodup_cons.mp hnd).2 h1

lemma length_lt_of_subset_witness {l₁ l₂ : List String}
    (h₁ : l₁.Nodup) (h₂ : l₂.Nodup) (hsub : ∀ a ∈ l₁, a ∈ l₂)
    (a : String) (ha₂ : a ∈ l₂) (ha₁ : a ∉ l₁) :
    l₁.length < l₂.length := by
  rw [← List.toFinset_card_of_nodup h₁, ← List.toFinset_card_of_nodup h₂]
  apply Finset.card_lt_card
  have hsub' : l₁.toFinset ⊆ l₂.toFinset := by
    intro x hx
    exact List.mem_toFinset.mpr (hsub x (List.mem_toFinset.mp hx))
  rw [Finset.ssubset_iff_of_subset hsub']
  exact ⟨a, List.mem_toFinset.mpr ha₂, fun hmem => ha₁ (List.mem_toFinset.mp hmem)⟩

lemma processDocs_success_processed (pipe : Pipeline) (now : Nat)
    (hsucc : ∀ i, ∃ r, pipe i = .ok r) :
    ∀ (docs : List (String × Doc)) (s : Store),
      (∀ p ∈ docs, s.has p.1 = true) →
      (List.map (fun p : String × Doc => p.1) docs).Nodup →
      ∀ p ∈ docs,
        Store.field ((processDocs wfNone pipe now docs s).1) p.1
          "agentProcessed" = some (.bool true)
  | [], _, _, _ => fun p hp => absurd hp (List.not_mem_nil p)
  | (id, d) :: rest, s, hids, hnd => by
    obtain ⟨r, hr⟩ := hsucc id
    have hhas : s.has id = true := hids (id, d) (List.mem_cons_self _ _)
    obtain ⟨d0, hget⟩ := Option.isSome_iff_exists.mp hhas
    have heq : processDoc wfNone pipe now s id =
        (s.applyAt id fun d1 : Doc =>
          (d1.update (claimFields now)).update (successFields r now), none) :=
      processDoc_ok_eq wfNone pipe now s id r hhas hr rfl rfl
    have hids' : ∀ p ∈ rest,
        (s.applyAt id fun d1 : Doc =>
          (d1.update (claimFields now)).update
            (successFields r now)).has p.1 = true := by
      intro p hp
      rw [has_applyAt]
      exact hids p (List.mem_cons_of_mem _ hp)
    intro p hp
    rcases List.mem_cons.mp hp with h1 | h1
    · have hp1 : p.1 = id := congrArg Prod.fst h1
      rw [hp1]
      simp only [processDocs, heq]
      have hnotin : id ∉ List.map (fun q : String × Doc => q.1) rest :=
        (List.nodup_cons.mp hnd).1
      have hpres := get_processDocs_notin wfNone pipe now rest
        (s.applyAt id fun d1 : Doc =>
          (d1.update (claimFields now)).update (successFields r now))
        id hnotin
      rw [Store.field, hpres, get_applyAt_self, hget]
      exact update_apply_some _ rfl
    · simp only [processDocs, heq]
      exact processDocs_success_processed pipe now hsucc rest _ hids'
        (List.nodup_cons.mp hnd).2 p h1

end SelectionLemmas

section CandidateLemmas

lemma field_some_get {t : Store} {id k : String} {v : Value}
    (h : Store.field t id k = some v) :
    ∃ d, t.get id = some d ∧ d k = some v := by
  rw [Store.field] at h
  cases hget : t.get id with
  | none => rw [hget] at h; exact Option.noConfusion h
  | some d => rw [hget] at h; exact ⟨d, rfl, h⟩

lemma isCandidate_false_of_processed {d : Doc}
    (h : d "agentProcessed" = some (.bool true)) :
    isCandidate d = false := by
  simp [isCandidate, h]

lemma mem_candidates_of_mem_queryDocs {s : Store} {p : String × Doc}
    (h : p ∈ queryDocs s) : p ∈ candidates s :=
  (sortBy_perm candLE (candidates s)).mem_iff.mp (List.take_subset 5 _ h)

lemma candIds_nodup {s : Store}
    (hnd : (List.map (fun p : String × Doc => p.1) s).Nodup) :
    (candIds s).Nodup :=
  hnd.sublist ((List.filter_sublist s).map _)

lemma mem_candIds_iff {s : Store}
    (hnd : (List.map (fun p : String × Doc => p.1) s).Nodup) {a : String} :
    a ∈ candIds s ↔ ∃ d, s.get a = some d ∧ isCandidate d = true := by
  constructor
  · intro h
    obtain ⟨p, hp, hp1⟩ := List.mem_map.mp h
    obtain ⟨hmem, hc⟩ := List.mem_filter.mp hp
    refine ⟨p.2, ?_, hc⟩
    have hmem' : (a, p.2) ∈ s := by
      rw [← hp1]
      exact hmem
    exact get_of_mem_nodup hnd hmem'
  · rintro ⟨d, hget, hc⟩
    exact List.mem_map.mpr
      ⟨(a, d), List.mem_filter.mpr ⟨mem_of_get hget, hc⟩, rfl⟩

lemma tick_candIds_lt (pipe : Pipeline) (now : Nat)
    (hsucc : ∀ i, ∃ r, pipe i = .ok r) (s : Store)
    (hnd : (List.map (fun p : String × Doc => p.1) s).Nodup)
    (hne : candidates s ≠ []) :
    (candIds (checkSessions wfNone pipe now s)).length <
      (candIds s).length := by
  have hids_t : List.map (fun p : String × Doc => p.1)
      (checkSessions wfNone pipe now s) =
      List.map (fun p : String × Doc => p.1) s :=
    ids_processDocs wfNone pipe now (queryDocs s) s
  have hnd_t : (List.map (fun p : String × Doc => p.1)
      (checkSessions wfNone pipe now s)).Nodup := by
    rw [hids_t]
    exact hnd
  have hproc : ∀ p ∈ queryDocs s,
      Store.field (checkSessions wfNone pipe now s) p.1 "agentProcessed" =
        some (.bool true) :=
    processDocs_success_processed pipe now hsucc (queryDocs s) s
      (fun q hq => has_of_mem (queryDocs_subset hq)) (queryIds_nodup hnd)
  have hnotcand : ∀ a ∈ queryIds s, a ∉
      candIds (checkSessions wfNone pipe now s) := by
    intro a ha hmem
    obtain ⟨d', hget', hc'⟩ := (mem_candIds_iff hnd_t).mp hmem
    obtain ⟨p, hp, hp1⟩ := List.mem_map.mp ha
    have hf := hproc p hp
    rw [hp1] at hf
    obtain ⟨d2, hget2, hd2⟩ := field_some_get hf
    rw [hget'] at hget2
    injection hget2 with hdd
    rw [← hdd] at hd2
    rw [isCandidate_false_of_processed hd2] at hc'
    exact Bool.noConfusion hc'
  have hsub : ∀ a ∈ candIds (checkSessions wfNone pipe now s),
      a ∈ candIds s := by
    intro a hmem
    obtain ⟨d', hget', hc'⟩ := (mem_candIds_iff hnd_t).mp hmem
    by_cases ha : a ∈ queryIds s
    · exact absurd hmem (hnotcand a ha)
    · have hpres : (checkSessions wfNone pipe now s).get a = s.get a :=
        get_processDocs_notin wfNone pipe now (queryDocs s) s a ha
      rw [hpres] at hget'
      exact (mem_candIds_iff hnd).mpr ⟨d', hget', hc'⟩
  have hqne : queryDocs s ≠ [] := by
    intro h0
    have hlen : (queryDocs s).length = 0 := by rw [h0]; rfl
    rw [queryDocs, List.length_take,
      (sortBy_perm candLE (candidates s)).length_eq] at hlen
    have hpos : 0 < (candidates s).length :=
      List.length_pos_of_mem
        (List.exists_mem_of_ne_nil _ hne).choose_spec
    omega
  obtain ⟨p₀, hp₀⟩ := List.exists_mem_of_ne_nil _ hqne
  have ha₀s : p₀.1 ∈ candIds s :=
    List.mem_map.mpr ⟨p₀, mem_candidates_of_mem_queryDocs hp₀, rfl⟩
  have ha₀q : p₀.1 ∈ queryIds s := List.mem_map.mpr ⟨p₀, hp₀, rfl⟩
  exact length_lt_of_subset_witness (candIds_nodup hnd_t) (candIds_nodup hnd)
    hsub p₀.1 ha₀s (hnotcand p₀.1 ha₀q)

lemma eventually_selected (pipe : Pipeline) (now : Nat)
    (hsucc : ∀ i, ∃ r, pipe i = .ok r) :
    ∀ (n : Nat) (s : Store),
      (List.map (fun p : String × Doc => p.1) s).Nodup →
      (candIds s).length ≤ n →
      ∀ (id : String) (d : Doc), s.get id = some d → isCandidate d = true →
      ∃ j, id ∈ queryIds (iterTick wfNone pipe now j s) ∧
        Store.field (iterTick wfNone pipe now (j + 1) s) id
          "agentProcessed" = some (.bool true)
  | 0, s, hnd, hlen, id, d, hget, hc => by
    exfalso
    have hmem : (id, d) ∈ candidates s :=
      List.mem_filter.mpr ⟨mem_of_get hget, hc⟩
    have hpos : 0 < (candIds s).length :=
      List.length_pos_of_mem (List.mem_map.mpr ⟨(id, d), hmem, rfl⟩)
    omega
  | n + 1, s, hnd, hlen, id, d, hget, hc => by
    by_cases hin : id ∈ queryIds s
    · refine ⟨0, hin, ?_⟩
      obtain ⟨p, hp, hp1⟩ := List.mem_map.mp hin
      have hfield := processDocs_success_processed pipe now hsucc
        (queryDocs s) s (fun q hq => has_of_mem (queryDocs_subset hq))
        (queryIds_nodup hnd) p hp
      rw [hp1] at hfield
      exact hfield
    · have hids_t : List.map (fun p : String × Doc => p.1)
          (checkSessions wfNone pipe now s) =
          List.map (fun p : String × Doc => p.1) s :=
        ids_processDocs wfNone pipe now (queryDocs s) s
      have hnd_t : (List.map (fun p : String × Doc => p.1)
          (checkSessions wfNone pipe now s)).Nodup := by
        rw [hids_t]
        exact hnd
      have hget_t : (checkSessions wfNone pipe now s).get id = some d := by
        have hpres : (checkSessions wfNone pipe now s).get id = s.get id :=
          get_processDocs_notin wfNone pipe now (queryDocs s) s id hin
        rw [hpres]
        exact hget
      have hne : candidates s ≠ [] :=
        List.ne_nil_of_mem (List.mem_filter.mpr ⟨mem_of_get hget, hc⟩)
      have hlt := tick_candIds_lt pipe now hsucc s hnd hne
      have hlen_t : (candIds (checkSessions wfNone pipe now s)).length ≤ n :=
        by omega
      obtain ⟨j, h1, h2⟩ := eventually_selected pipe now hsucc n
        (checkSessions wfNone pipe now s) hnd_t hlen_t id d hget_t hc
      exact ⟨j + 1, h1, h2⟩

end CandidateLemmas

section ClaimC1

/-- C1 (amended): every record with `status = completed` and
`agentProcessed` absent or false matches the selector's filter, and is
returned by the query whenever at most five candidates exist (the query
returns only the first five in its ordering); moreover, provided every
attempt on a selected record succeeds, iterating the Monitor tick
eventually selects each such record and marks it processed on the following
tick. (As stated, the claim fails: with six candidates the query's
`limit(5)` omits the lowest-priority one — see the counterexample — and
with persistently failing attempts the top five candidates occupy the page
forever, since a failure changes none of the ordering keys.) -/
theorem selector_reaches_every_candidate :
    (∀ (s : Store) (id : String) (d : Doc),
        (id, d) ∈ s → d "status" = some (.str "completed") →
        d "agentProcessed" ≠ some (.bool true) →
        (id, d) ∈ candidates s ∧
          ((candidates s).length ≤ 5 → (id, d) ∈ queryDocs s)) ∧
      ∀ (pipe : Pipeline) (now : Nat) (s : Store),
        (∀ i, ∃ r, pipe i = .ok r) →
        (List.map (fun p : String × Doc => p.1) s).Nodup →
        ∀ (id : String) (d : Doc), s.get id = some d →
          isCandidate d = true →
          ∃ j, id ∈ queryIds (iterTick wfNone pipe now j s) ∧
            Store.field (iterTick wfNone pipe now (j + 1) s) id
              "agentProcessed" = some (.bool true) := by
  constructor
  · intro s id d hmem hst hnp
    have hcand : (id, d) ∈ candidates s :=
      List.mem_filter.mpr ⟨hmem, isCandidate_of hst hnp⟩
    refine ⟨hcand, fun hle => ?_⟩
    have hlen : (sortBy candLE (candidates s)).length ≤ 5 := by
      rw [(sortBy_perm candLE (candidates s)).length_eq]
      exact hle
    rw [queryDocs, List.take_of_length_le hlen]
    exact (sortBy_perm candLE (candidates s)).mem_iff.mpr hcand
  · intro pipe now s hsucc hnd id d hget hc
    exact eventually_selected pipe now hsucc (candIds s).length s hnd
      le_rfl id d hget hc

/-- Witness for C1's amended theorem: the sole candidate of `storeOne` is
returned by the query and is processed after the first tick. -/
theorem selector_reaches_every_candidate_witness :
    ("S1", mkDoc [("status", .str "completed"), ("analysisCompleted", .nat 9)])
        ∈ queryDocs storeOne ∧
      ∃ j, "S1" ∈ queryIds (iterTick wfNone pipeOk 3 j storeOne) ∧
        Store.field (iterTick wfNone pipeOk 3 (j + 1) storeOne) "S1"
          "agentProcessed" = some (.bool true) := by
  constructor
  · exact (selector_reaches_every_candidate.1 storeOne "S1"
      (mkDoc [("status", .str "completed"), ("analysisCompleted", .nat 9)])
      (List.Mem.head _) rfl (by decide)).2 (by decide)
  · exact selector_reaches_every_candidate.2 pipeOk 3 storeOne
      (fun i => ⟨"r", rfl⟩) (by decide) "S1"
      (mkDoc [("status", .str "completed"), ("analysisCompleted", .nat 9)])
      rfl rfl

/-- Counterexample to C1 as stated: `S6` has `status = completed` and no
`agentProcessed` field, yet the selector's query — `limit(5)` over six
candidates, `S6` ordered last — does not return it. -/
theorem limit_excludes_candidate_cex :
    Store.get storeSix "S6" = some (cdoc 1) ∧
      cdoc 1 "status" = some (.str "completed") ∧
      cdoc 1 "agentProcessed" = none ∧
      "S6" ∉ queryIds storeSix := by
  exact ⟨rfl, rfl, rfl, by decide⟩

end ClaimC1

end SessionMonitor
